import Mathlib

/-!
Verification of the egg-router route-matching and middleware-composition engine.

The definitions below are a shallow embedding of the repository's source:

* `src/src/layer.ts` — the `Layer` class and the `Router` class (layer stack,
  `match`, `routes()` dispatch, `allowedMethods`, `route`/`url`);
* `src/src/Layer.ts` — the standalone `Layer` class (`params`, `captures`,
  `url`, `param`, `setPrefix`);
* `src/src/EggRouter.ts` — `EggRouter#url` (reverse routing by route name).

The external pattern compiler (`path-to-regexp`), percent encoder/decoder
(`utility`) and middleware composition runtime (`koa-compose`) are outside the
repository; they are modelled from the spec's contract for them (section 4.1)
as explicit function parameters or as small executable models, each marked
"Modelled from the spec" in its doc comment.
-/

namespace Spec

/-- A named parameter key produced by the pattern compiler (the `Key` entries
that `pathToRegExp(path, this.paramNames, this.opts)` appends). -/
structure Key where
  name : String
deriving Repr, DecidableEq

/-- Modelled from the spec: the compiled result of the external pattern-matcher
capability (spec section 4.1), consumed by `Layer`. `test` is the JS
`RegExp.prototype.test` predicate; `exec` models `String.prototype.match`: it
returns `none` when the path does not match, and on a match a list whose head
is the full matched substring and whose tail holds the capture groups (a group
that did not participate is `none`). -/
structure CompiledMatcher where
  test : String → Bool
  exec : String → Option (List (Option String))

/-- One entry of a layer's middleware stack. `tag` identifies the underlying
JS function object; `paramProp` models the optional `param` property that
`Layer#param` sets on the wrapper middleware it creates (`middleware.param =
param`). A plain handler has `paramProp = none`. -/
structure StackFn where
  paramProp : Option String := none
  tag : Nat := 0
deriving Repr, DecidableEq

/-- One registered route layer (src/src/layer.ts `class Layer`): optional route
name, uppercased method list, middleware stack, display path, the compiled
matcher and the compiled parameter keys, and the `ignoreCaptures` option. -/
structure Layer where
  name : Option String := none
  methods : List String := []
  stack : List StackFn := []
  path : String := ""
  matcher : CompiledMatcher
  paramNames : List Key := []
  ignoreCaptures : Bool := false

/-- Modelled from the spec: JS `String.prototype.toUpperCase`, restricted to
ASCII (HTTP method names are ASCII), used by the constructor's
`method.toUpperCase()`. -/
def jsToUpperCase (s : String) : String :=
  String.mk (s.toList.map (fun c =>
    if 97 ≤ c.toNat && c.toNat ≤ 122 then Char.ofNat (c.toNat - 32) else c))

/-- The methods loop of the `Layer` constructor (src/src/layer.ts lines 55-60):
each incoming method name is pushed uppercased, and whenever the entry just
pushed is `GET`, `HEAD` is unshifted to the front of the list. -/
def buildMethods (methods : List String) : List String :=
  methods.foldl
    (fun acc m =>
      let acc1 := acc ++ [jsToUpperCase m]
      if jsToUpperCase m == "GET" then "HEAD" :: acc1 else acc1)
    []

/-- The `Layer` constructor (src/src/layer.ts lines 49-77): store the options'
name, build the method list with `HEAD` synthesis, keep the middleware stack
and the display path, and compile the matcher immediately through the external
compiler (`pathToRegExp(path, this.paramNames, this.opts)`), which also fills
in the parameter keys. The middleware-type validation throws on non-functions;
`StackFn` values model functions, so that check always passes here. -/
def Layer.make (compile : String → CompiledMatcher × List Key)
    (path : String) (methods : List String) (stack : List StackFn)
    (name : Option String) (ignoreCaptures : Bool) : Layer :=
  let compiled := compile path
  { name := name
    methods := buildMethods methods
    stack := stack
    path := path
    matcher := compiled.1
    paramNames := compiled.2
    ignoreCaptures := ignoreCaptures }

/-- `Layer#match(path)` (src/src/layer.ts line 86): delegate to the compiled
predicate (`this.regexp.test(path)`). -/
def Layer.matchPath (l : Layer) (path : String) : Bool :=
  l.matcher.test path

/-- `Layer#setPrefix(prefix)` (src/src/layer.ts lines 247-254): when the
current path is truthy (non-empty string), prepend the prefix and recompile
the matcher, resetting the parameter keys to the newly compiled set; otherwise
a no-op. -/
def Layer.setPrefix (compile : String → CompiledMatcher × List Key)
    (pre : String) (l : Layer) : Layer :=
  if l.path = "" then l
  else
    let newPath := pre ++ l.path
    let compiled := compile newPath
    { l with path := newPath, matcher := compiled.1, paramNames := compiled.2 }

/-- `Layer#captures(path)` (src/src/Layer.ts lines 131-135): the empty list
when the layer was built with `ignoreCaptures`; otherwise
`path.match(this.regexp)` — the tail of the match array on a match and the
empty list when the path does not match (`m ? m.slice(1) : []`). -/
def Layer.captures (l : Layer) (path : String) : List (Option String) :=
  if l.ignoreCaptures then []
  else
    match l.matcher.exec path with
    | some m => m.drop 1
    | none => []

/-- The router's default implemented-method list (src/src/layer.ts lines
341-349, the `Router` constructor). -/
def defaultMethods : List String :=
  ["HEAD", "OPTIONS", "GET", "PUT", "PATCH", "POST", "DELETE"]

/-- Router state (src/src/layer.ts `class Router`): the ordered layer stack,
the param-middleware registry `this.params` (a JS object keyed by parameter
name, insertion-ordered, modelled as an association list whose values are
middleware tags), and the implemented-method list. -/
structure Router where
  stack : List Layer := []
  params : List (String × Nat) := []
  methods : List String := defaultMethods

/-- The match result of `Router#match` (src/src/layer.ts `MatchedResult`):
the layers matched by path, the layers matched by path and method, and the
`route` flag. -/
structure MatchedResult where
  path : List Layer
  pathAndMethod : List Layer
  route : Bool

/-- One iteration of the `for (const layer of this.stack)` loop in
`Router#match` (src/src/layer.ts lines 790-809): a layer whose regexp accepts
the path is appended to `matched.path`; when additionally its method set is
empty or contains the request method it is appended to `matched.pathAndMethod`,
and `matched.route` is set when that method set is non-empty. -/
def matchStep (path method : String) (matched : MatchedResult) (layer : Layer) :
    MatchedResult :=
  if layer.matchPath path then
    let matched1 : MatchedResult := { matched with path := matched.path ++ [layer] }
    if layer.methods.length == 0 || layer.methods.contains method then
      { matched1 with
        pathAndMethod := matched1.pathAndMethod ++ [layer]
        route := matched1.route || decide (layer.methods.length > 0) }
    else matched1
  else matched

/-- `Router#match(path, method)` (src/src/layer.ts lines 780-812): fold the
loop body over the layer stack in registration order, starting from the empty
result. -/
def Router.matchLayers (r : Router) (path method : String) : MatchedResult :=
  r.stack.foldl (matchStep path method) { path := [], pathAndMethod := [], route := false }

/-- The observable outcome of one call of the dispatch function returned by
`Router#routes()` (src/src/layer.ts lines 456-496): either `next()` is invoked
and its result returned (`nextCalled`), or the wrapper-plus-stack chain built
from the given layers is composed and run (`chainComposed`). -/
inductive DispatchOutcome where
  | nextCalled
  | chainComposed (layers : List Layer)

/-- The branch structure of the dispatch function (src/src/layer.ts lines
457-492): run `match` on the router path; when `matched.route` is false,
return `next()` without building any chain; otherwise compose the chain over
`matched.pathAndMethod`. -/
def Router.dispatchOutcome (r : Router) (path method : String) : DispatchOutcome :=
  let matched := r.matchLayers path method
  if matched.route then .chainComposed matched.pathAndMethod else .nextCalled

/-- Whether a layer matched by path also carries the request method in a
non-empty method set — the condition under which the loop sets
`matched.route`. -/
def routeHit (path method : String) (l : Layer) : Bool :=
  l.matchPath path && l.methods.contains method && decide (l.methods.length > 0)

theorem matchStep_foldl (path method : String) :
    ∀ (stack : List Layer) (init : MatchedResult),
      (stack.foldl (matchStep path method) init).path
          = init.path ++ stack.filter (fun l => l.matchPath path)
      ∧ (stack.foldl (matchStep path method) init).pathAndMethod
          = init.pathAndMethod ++ stack.filter
              (fun l => l.matchPath path
                && (l.methods.length == 0 || l.methods.contains method))
      ∧ (stack.foldl (matchStep path method) init).route
          = (init.route || stack.any (routeHit path method)) := by
  intro stack
  induction stack with
  | nil => intro init; simp
  | cons layer rest ih =>
    intro init
    by_cases hm : layer.matchPath path
    · by_cases hme : (layer.methods.length == 0 || layer.methods.contains method) = true
      · have hstep : matchStep path method init layer
            = ⟨init.path ++ [layer], init.pathAndMethod ++ [layer],
               init.route || decide (0 < layer.methods.length)⟩ := by
          simp only [matchStep]
          rw [if_pos hm, if_pos hme]
        rw [List.foldl_cons, hstep]
        obtain ⟨ih1, ih2, ih3⟩ := ih ⟨init.path ++ [layer], init.pathAndMethod ++ [layer],
          init.route || decide (0 < layer.methods.length)⟩
        have hhit : routeHit path method layer = decide (0 < layer.methods.length) := by
          rcases Bool.or_eq_true_iff.mp hme with hz | hc
          · have hz' : layer.methods.length = 0 := by simpa using hz
            simp [routeHit, hz']
          · unfold routeHit
            rw [hm, hc]
            simp
        have hp1 : (fun l : Layer => l.matchPath path) layer = true := hm
        have hp2 : (fun l : Layer => l.matchPath path
            && (l.methods.length == 0 || l.methods.contains method)) layer = true := by
          show (layer.matchPath path
            && (layer.methods.length == 0 || layer.methods.contains method)) = true
          rw [hm, hme]
          rfl
        refine ⟨?_, ?_, ?_⟩
        · rw [ih1, @List.filter_cons_of_pos Layer (fun l => l.matchPath path) layer rest hp1]
          simp
        · rw [ih2, @List.filter_cons_of_pos Layer
            (fun l => l.matchPath path && (l.methods.length == 0 || l.methods.contains method))
            layer rest hp2]
          simp
        · rw [ih3]; simp only [List.any_cons, hhit, Bool.or_assoc]
      · have hstep : matchStep path method init layer
            = ⟨init.path ++ [layer], init.pathAndMethod, init.route⟩ := by
          simp only [matchStep]
          rw [if_pos hm, if_neg (by simpa using hme)]
        rw [List.foldl_cons, hstep]
        obtain ⟨ih1, ih2, ih3⟩ := ih ⟨init.path ++ [layer], init.pathAndMethod, init.route⟩
        have hhit : routeHit path method layer = false := by
          have hc : layer.methods.contains method = false := by
            have := Bool.or_eq_false_iff.mp (Bool.eq_false_iff.mpr hme)
            exact this.2
          unfold routeHit
          rw [hc]
          simp
        have hp1 : (fun l : Layer => l.matchPath path) layer = true := hm
        have hp2 : ¬ (fun l : Layer => l.matchPath path
            && (l.methods.length == 0 || l.methods.contains method)) layer = true := by
          show ¬ (layer.matchPath path
            && (layer.methods.length == 0 || layer.methods.contains method)) = true
          rw [hm, Bool.eq_false_iff.mpr hme]
          simp
        refine ⟨?_, ?_, ?_⟩
        · rw [ih1, @List.filter_cons_of_pos Layer (fun l => l.matchPath path) layer rest hp1]
          simp
        · rw [ih2, @List.filter_cons_of_neg Layer
            (fun l => l.matchPath path && (l.methods.length == 0 || l.methods.contains method))
            layer rest hp2]
        · rw [ih3, List.any_cons, hhit]; simp
    · have hstep : matchStep path method init layer = init := by
        simp only [matchStep]
        rw [if_neg (by simpa using hm)]
      rw [List.foldl_cons, hstep]
      obtain ⟨ih1, ih2, ih3⟩ := ih init
      have hmf : layer.matchPath path = false := Bool.eq_false_iff.mpr hm
      have hq1 : ¬ (fun l : Layer => l.matchPath path) layer = true := hm
      have hq2 : ¬ (fun l : Layer => l.matchPath path
          && (l.methods.length == 0 || l.methods.contains method)) layer = true := by
        show ¬ (layer.matchPath path
          && (layer.methods.length == 0 || layer.methods.contains method)) = true
        rw [hmf]
        simp
      have hhit : routeHit path method layer = false := by
        unfold routeHit
        rw [hmf]
        simp
      refine ⟨?_, ?_, ?_⟩
      · rw [ih1, @List.filter_cons_of_neg Layer (fun l => l.matchPath path) layer rest hq1]
      · rw [ih2, @List.filter_cons_of_neg Layer
          (fun l => l.matchPath path && (l.methods.length == 0 || l.methods.contains method))
          layer rest hq2]
      · rw [ih3, List.any_cons, hhit]; simp

/-- C1. For every router state, request path and method, `Router#match` returns
`matchedByPath` equal to exactly the layers of the stack whose compiled matcher
accepts the path, in registration order (a filter of the stack: no
short-circuit, no reordering), and `matchedByPathAndMethod` equal to the
subsequence of those layers whose method set is empty or contains the request
method. -/
theorem router_match_filters_in_registration_order (r : Router) (path method : String) :
    (r.matchLayers path method).path
        = r.stack.filter (fun l => l.matcher.test path)
    ∧ (r.matchLayers path method).pathAndMethod
        = ((r.matchLayers path method).path).filter
            (fun l => l.methods = [] ∨ method ∈ l.methods) := by
  obtain ⟨h1, h2, -⟩ := matchStep_foldl path method r.stack
    { path := [], pathAndMethod := [], route := false }
  constructor
  · simpa [Router.matchLayers, Layer.matchPath] using h1
  · rw [Router.matchLayers, h1, h2]
    simp only [List.nil_append, List.filter_filter]
    apply List.filter_congr
    intro l _
    cases hl : l.methods <;> simp [Layer.matchPath, hl, Bool.and_comm]

/-- C2. The dispatch function returned by `Router#routes()` calls `next()` and
returns its result — composing no layer chain — exactly when no layer that
matches the path has a non-empty method set containing the request method; in
particular a path-matching layer with an empty method set never by itself makes
dispatch run the route chain. -/
theorem dispatch_fallthrough_iff_no_method_route (r : Router) (path method : String) :
    r.dispatchOutcome path method = .nextCalled
      ↔ ¬ ∃ l ∈ r.stack, l.matcher.test path ∧ l.methods ≠ [] ∧ method ∈ l.methods := by
  obtain ⟨-, -, h3⟩ := matchStep_foldl path method r.stack
    { path := [], pathAndMethod := [], route := false }
  have hroute : (r.matchLayers path method).route
      = r.stack.any (routeHit path method) := by
    simpa [Router.matchLayers] using h3
  constructor
  · intro h hex
    obtain ⟨l, hl, ht, hne, hmem⟩ := hex
    rw [Router.dispatchOutcome] at h
    by_cases hr : (r.matchLayers path method).route
    · simp [hr] at h
    · rw [hroute] at hr
      refine hr ?_
      refine List.any_eq_true.mpr ⟨l, hl, ?_⟩
      have hlen : 0 < l.methods.length := List.length_pos.mpr hne
      simp [routeHit, Layer.matchPath, ht, hmem, hlen]
  · intro h
    rw [Router.dispatchOutcome]
    by_cases hr : (r.matchLayers path method).route
    · exfalso
      rw [hroute] at hr
      obtain ⟨l, hl, hh⟩ := List.any_eq_true.mp hr
      simp only [routeHit, Bool.and_eq_true, decide_eq_true_eq] at hh
      exact h ⟨l, hl, by simpa [Layer.matchPath] using hh.1.1,
        List.length_pos.mp hh.2, by simpa using hh.1.2⟩
    · simp [hr]


/-- JS `Array.prototype.indexOf`: the index of the first occurrence of `s`,
`-1` when absent. -/
def jsIndexOf (l : List String) (s : String) : Int :=
  if s ∈ l then (l.indexOf s : Int) else -1

/-- The stop condition of the `stack.some` walk in `Layer#param`
(src/src/layer.ts lines 225-234): stop at an entry without a truthy `param`
property, or whose param's index among the layer's param names is greater than
the index of the parameter being inserted
(`!fn.param || names.indexOf(fn.param) > x`). -/
def stopHere (names : List String) (x : Int) (fn : StackFn) : Bool :=
  match fn.paramProp with
  | none => true
  | some p => if p = "" then true else decide (jsIndexOf names p > x)

/-- The `stack.some(...)` walk together with its `stack.splice(i, 0,
middleware)` effect: insert `mw` right before the first entry satisfying
`stopHere`; when no entry does, `some` returns false and nothing is inserted. -/
def spliceBefore (names : List String) (x : Int) (mw : StackFn) :
    List StackFn → List StackFn
  | [] => []
  | fn :: rest =>
    if stopHere names x fn then mw :: fn :: rest
    else fn :: spliceBefore names x mw rest

/-- `Layer#param(param, fn)` (src/src/layer.ts lines 210-238): build the
wrapper middleware carrying `param` as its `param` property (`fnTag` stands
for the identity of the wrapped function); when `param` occurs among the
layer's param names (`names.indexOf(param) > -1`), splice the wrapper into the
middleware stack before the first entry that stops the walk; otherwise a
no-op. -/
def Layer.param (p : String) (fnTag : Nat) (l : Layer) : Layer :=
  let names := l.paramNames.map Key.name
  let mw : StackFn := { paramProp := some p, tag := fnTag }
  let x := jsIndexOf names p
  if x > -1 then { l with stack := spliceBefore names x mw l.stack } else l

theorem buildMethods_foldl_head (ms : List String) :
    ∀ acc : List String, acc.head? = some "HEAD" →
      (ms.foldl (fun acc m =>
          let acc1 := acc ++ [jsToUpperCase m]
          if jsToUpperCase m == "GET" then "HEAD" :: acc1 else acc1) acc).head?
        = some "HEAD" := by
  induction ms with
  | nil => intro acc h; simpa using h
  | cons m rest ih =>
    intro acc h
    rw [List.foldl_cons]
    by_cases hg : (jsToUpperCase m == "GET") = true
    · exact ih _ (by simp [hg])
    · refine ih _ ?_
      simp only [hg]
      simp only [Bool.false_eq_true, if_false, List.head?_append, h]
      rfl

theorem buildMethods_foldl_get (ms : List String) :
    ∀ acc : List String, "GET" ∈ ms.map jsToUpperCase →
      (ms.foldl (fun acc m =>
          let acc1 := acc ++ [jsToUpperCase m]
          if jsToUpperCase m == "GET" then "HEAD" :: acc1 else acc1) acc).head?
        = some "HEAD" := by
  induction ms with
  | nil => intro acc h; simp at h
  | cons m rest ih =>
    intro acc h
    rw [List.foldl_cons]
    by_cases hg : (jsToUpperCase m == "GET") = true
    · exact buildMethods_foldl_head rest _ (by simp [hg])
    · have hm : "GET" ∈ rest.map jsToUpperCase := by
        rw [List.map_cons] at h
        rcases List.mem_cons.mp h with h1 | h1
        · exact absurd (by rw [← h1]; rfl) hg
        · exact h1
      exact ih _ hm

/-- C3. HEAD synthesis: whenever the method list given to the `Layer`
constructor contains GET in any letter case, the built method list starts with
(hence contains) HEAD; and neither `setPrefix` nor `param` touches the method
list (`match` reads the layer without mutating it), so the synthesized HEAD
entry survives every later operation. -/
theorem get_registration_synthesizes_head :
    (∀ methods : List String, "GET" ∈ methods.map jsToUpperCase →
        "HEAD" ∈ buildMethods methods ∧ (buildMethods methods).head? = some "HEAD")
    ∧ (∀ (compile : String → CompiledMatcher × List Key) (pre : String) (l : Layer),
        (Layer.setPrefix compile pre l).methods = l.methods)
    ∧ (∀ (p : String) (t : Nat) (l : Layer), (Layer.param p t l).methods = l.methods) := by
  refine ⟨?_, ?_, ?_⟩
  · intro methods hGet
    have hhead : (buildMethods methods).head? = some "HEAD" :=
      buildMethods_foldl_get methods [] hGet
    refine ⟨?_, hhead⟩
    cases hres : buildMethods methods with
    | nil => rw [hres] at hhead; simp at hhead
    | cons a t =>
      rw [hres] at hhead
      simp only [List.head?_cons, Option.some.injEq] at hhead
      simp [hhead]
  · intro compile pre l
    unfold Layer.setPrefix
    split <;> rfl
  · intro p t l
    unfold Layer.param
    dsimp only
    split <;> rfl

/-- Witness for C3 at the concrete input `["get"]`. -/
theorem get_registration_synthesizes_head_witness :
    "HEAD" ∈ buildMethods ["get"] ∧ (buildMethods ["get"]).head? = some "HEAD" :=
  get_registration_synthesizes_head.1 ["get"] (by decide)

/-- A concrete compiled matcher used by witnesses: accepts the single path
`/users/3` with one capture group `3`. -/
def usersMatcher : CompiledMatcher :=
  { test := fun p => p == "/users/3"
    exec := fun p =>
      if p == "/users/3" then some [some "/users/3", some "3"] else none }

/-- A concrete layer over `usersMatcher`, as `router.get('user', '/users/:id',
handler)` would register it. -/
def usersLayer : Layer :=
  { name := some "user"
    methods := buildMethods ["GET"]
    stack := [{ paramProp := none, tag := 0 }]
    path := "/users/:id"
    matcher := usersMatcher
    paramNames := [{ name := "id" }]
    ignoreCaptures := false }

/-- C10. `Layer#captures` is a total function: the empty list when the layer
was constructed with `ignoreCaptures`, the empty list (not a failure) when the
path does not match the compiled regexp, and the ordered capture-group list
(the match array without its full-match head) otherwise. -/
theorem captures_total_empty_cases (l : Layer) (path : String) :
    (l.ignoreCaptures = true → l.captures path = [])
    ∧ (l.ignoreCaptures = false → l.matcher.exec path = none → l.captures path = [])
    ∧ (l.ignoreCaptures = false → ∀ m, l.matcher.exec path = some m →
        l.captures path = m.drop 1) := by
  refine ⟨?_, ?_, ?_⟩
  · intro h
    simp [Layer.captures, h]
  · intro h hexec
    simp [Layer.captures, h, hexec]
  · intro h m hexec
    simp [Layer.captures, h, hexec]

/-- Witness for C10 at `usersLayer`: a matching path yields the capture tail, a
non-matching path yields the empty list. -/
theorem captures_total_empty_cases_witness :
    usersLayer.captures "/users/3" = [some "3"] ∧ usersLayer.captures "/nope" = [] := by
  have h1 := captures_total_empty_cases usersLayer "/users/3"
  have h2 := captures_total_empty_cases usersLayer "/nope"
  exact ⟨(h1.2.2 rfl [some "/users/3", some "3"] rfl).trans rfl, h2.2.1 rfl rfl⟩

/-- Hex digit value of a character, `none` when not a hex digit. -/
def hexVal? (c : Char) : Option Nat :=
  if 48 ≤ c.toNat && c.toNat ≤ 57 then some (c.toNat - 48)
  else if 65 ≤ c.toNat && c.toNat ≤ 70 then some (c.toNat - 55)
  else if 97 ≤ c.toNat && c.toNat ≤ 102 then some (c.toNat - 87)
  else none

/-- Modelled from the spec: the escape layer of `decodeURIComponent` — each
`%XY` escape becomes the byte `0xXY`, any other character contributes its
UTF-8 bytes; `none` (a `URIError`) when a `%` is not followed by two hex
digits. -/
def percentDecodeBytes? : List Char → Option (List UInt8)
  | [] => some []
  | '%' :: c1 :: c2 :: rest =>
    match hexVal? c1, hexVal? c2 with
    | some h1, some h2 =>
      (percentDecodeBytes? rest).map (fun bs => UInt8.ofNat (16 * h1 + h2) :: bs)
    | _, _ => none
  | '%' :: _ => none
  | c :: rest => (percentDecodeBytes? rest).map (fun bs => String.utf8EncodeChar c ++ bs)

/-- Whether a byte is a UTF-8 continuation byte (`10xxxxxx`). -/
def isContByte (b : UInt8) : Bool :=
  128 ≤ b.toNat && b.toNat < 192

/-- Modelled from the spec: UTF-8 decoding of a byte sequence, `none` on an
invalid sequence (`decodeURIComponent` throws a `URIError` for escape bytes
that do not form valid UTF-8). The fuel argument (instantiated with the byte
count) keeps the recursion structural. -/
def utf8DecodeFuel : Nat → List UInt8 → Option (List Char)
  | _, [] => some []
  | 0, _ :: _ => none
  | fuel + 1, b1 :: rest =>
    let n1 := b1.toNat
    if n1 < 128 then (utf8DecodeFuel fuel rest).map (fun cs => Char.ofNat n1 :: cs)
    else if 194 ≤ n1 && n1 < 224 then
      match fuel, rest with
      | f2 + 1, b2 :: rest2 =>
        if isContByte b2 then
          (utf8DecodeFuel f2 rest2).map
            (fun cs => Char.ofNat ((n1 - 192) * 64 + (b2.toNat - 128)) :: cs)
        else none
      | _, _ => none
    else if 224 ≤ n1 && n1 < 240 then
      match fuel, rest with
      | f2 + 2, b2 :: b3 :: rest3 =>
        if isContByte b2 && isContByte b3 then
          let code := (n1 - 224) * 4096 + (b2.toNat - 128) * 64 + (b3.toNat - 128)
          if 2048 ≤ code && !(55296 ≤ code && code < 57344) then
            (utf8DecodeFuel f2 rest3).map (fun cs => Char.ofNat code :: cs)
          else none
        else none
      | _, _ => none
    else if 240 ≤ n1 && n1 < 245 then
      match fuel, rest with
      | f2 + 3, b2 :: b3 :: b4 :: rest4 =>
        if isContByte b2 && isContByte b3 && isContByte b4 then
          let code := (n1 - 240) * 262144 + (b2.toNat - 128) * 4096
            + (b3.toNat - 128) * 64 + (b4.toNat - 128)
          if 65536 ≤ code && code ≤ 1114111 then
            (utf8DecodeFuel f2 rest4).map (fun cs => Char.ofNat code :: cs)
          else none
        else none
      | _, _ => none
    else none

/-- UTF-8 decoding at the natural fuel (the byte count). -/
def utf8Decode? (bs : List UInt8) : Option (List Char) :=
  utf8DecodeFuel bs.length bs

/-- Modelled from the spec: `decodeURIComponent` — `none` stands for the
thrown `URIError` on a malformed escape sequence or invalid UTF-8 escape
bytes; otherwise the decoded string. -/
def percentDecode? (s : String) : Option String :=
  (percentDecodeBytes? s.toList).bind
    (fun bs => (utf8Decode? bs).map (fun cs => String.mk cs))

/-- `utility.decodeURIComponent`, imported as `safeDecodeURIComponent` in
src/src/Layer.ts: try `decodeURIComponent` and return the raw string when it
throws. -/
def safeDecodeURIComponent (s : String) : String :=
  (percentDecode? s).getD s

/-- JS object assignment `params[name] = v`: overwrite in place when the key
exists, keeping its position, else append. -/
def setParam (ps : List (String × Option String)) (k : String) (v : Option String) :
    List (String × Option String) :=
  if ps.any (fun q => q.1 == k) then
    ps.map (fun q => if q.1 == k then (k, v) else q)
  else ps ++ [(k, v)]

/-- Key lookup in the params record (reading `params[name]`). -/
def getParam (ps : List (String × Option String)) (k : String) : Option (Option String) :=
  (ps.find? (fun q => q.1 == k)).map (fun q => q.2)

/-- The value stored for one aligned capture by `Layer#params`
(`params[paramName.name] = c ? safeDecodeURIComponent(c) : c`): a truthy
capture (a defined, non-empty string) is decoded with raw fallback; a falsy
capture (undefined or the empty string) is stored unchanged. -/
def paramValue (c : Option String) : Option String :=
  match c with
  | some s => if s = "" then some s else some (safeDecodeURIComponent s)
  | none => none

/-- The capture loop of `Layer#params` (src/src/Layer.ts lines 114-120):
walk `paramNames` and the captures positionally; each aligned pair assigns
`paramValue` into the record; indices past either list assign nothing. -/
def paramsLoop (keys : List Key) (captures : List (Option String))
    (ps : List (String × Option String)) : List (String × Option String) :=
  match keys, captures with
  | key :: ks, c :: cs => paramsLoop ks cs (setParam ps key.name (paramValue c))
  | _, _ => ps

/-- `Layer#params(path, captures, existingParams)` (src/src/Layer.ts lines
111-122). The path argument is unused, as in the source. -/
def Layer.params (l : Layer) (_path : String) (captures : List (Option String))
    (existingParams : List (String × Option String)) : List (String × Option String) :=
  paramsLoop l.paramNames captures existingParams

theorem getParam_cons_of_pos (q : String × Option String)
    (ps : List (String × Option String)) (k : String) (h : (q.1 == k) = true) :
    getParam (q :: ps) k = some q.2 := by
  rw [getParam, @List.find?_cons_of_pos (String × Option String) (fun r => r.1 == k) q ps h]
  rfl

theorem getParam_cons_of_neg (q : String × Option String)
    (ps : List (String × Option String)) (k : String) (h : ¬ (q.1 == k) = true) :
    getParam (q :: ps) k = getParam ps k := by
  rw [getParam, @List.find?_cons_of_neg (String × Option String) (fun r => r.1 == k) q ps h,
    getParam]

theorem getParam_map_overwrite (ps : List (String × Option String))
    (k1 k : String) (v : Option String) (hk : k1 ≠ k) :
    getParam (ps.map (fun q => if q.1 == k1 then (k1, v) else q)) k = getParam ps k := by
  induction ps with
  | nil => rfl
  | cons q ps ih =>
    by_cases hq : q.1 = k1
    · have hfq : (if (q.1 == k1) = true then (k1, v) else q) = (k1, v) := by simp [hq]
      rw [List.map_cons]
      rw [hfq]
      rw [getParam_cons_of_neg _ _ _ (by simp [hk])]
      rw [getParam_cons_of_neg q ps k (by simp [hq, hk])]
      exact ih
    · have hfq : (if (q.1 == k1) = true then (k1, v) else q) = q := by simp [hq]
      rw [List.map_cons]
      rw [hfq]
      by_cases hqk : q.1 = k
      · rw [getParam_cons_of_pos _ _ _ (by simp [hqk])]
        rw [getParam_cons_of_pos q ps k (by simp [hqk])]
      · rw [getParam_cons_of_neg _ _ _ (by simp [hqk])]
        rw [getParam_cons_of_neg q ps k (by simp [hqk])]
        exact ih

theorem getParam_setParam_self (ps : List (String × Option String))
    (k : String) (v : Option String) :
    getParam (setParam ps k v) k = some v := by
  unfold setParam
  by_cases ha : ps.any (fun q => q.1 == k) = true
  · rw [if_pos ha]
    induction ps with
    | nil => simp at ha
    | cons q ps ih =>
      by_cases hq : q.1 = k
      · have hfq : (if (q.1 == k) = true then (k, v) else q) = (k, v) := by simp [hq]
        rw [List.map_cons, hfq, getParam_cons_of_pos _ _ _ (by simp)]
      · have hq' : (q.1 == k) = false := by simp [hq]
        have ha' : ps.any (fun q => q.1 == k) = true := by
          rw [List.any_cons, hq'] at ha
          simpa using ha
        have hfq : (if (q.1 == k) = true then (k, v) else q) = q := by simp [hq]
        rw [List.map_cons, hfq, getParam_cons_of_neg _ _ _ (by simp [hq])]
        exact ih ha'
  · rw [if_neg ha]
    have hnone : ps.find? (fun q => q.1 == k) = none := by
      rw [List.find?_eq_none]
      intro q hq hpq
      exact ha (List.any_eq_true.mpr ⟨q, hq, hpq⟩)
    rw [getParam, List.find?_append, hnone]
    simp

theorem getParam_setParam_ne (ps : List (String × Option String))
    (k1 k : String) (v : Option String) (hk : k1 ≠ k) :
    getParam (setParam ps k1 v) k = getParam ps k := by
  unfold setParam
  by_cases ha : ps.any (fun q => q.1 == k1) = true
  · rw [if_pos ha]
    exact getParam_map_overwrite ps k1 k v hk
  · rw [if_neg ha]
    have hsingle : List.find? (fun q => q.1 == k) [(k1, v)] = none := by
      simp [hk]
    rw [getParam, List.find?_append, hsingle, Option.or_none, getParam]

theorem getParam_paramsLoop_absent (k : String) :
    ∀ (keys : List Key) (caps : List (Option String))
      (ps : List (String × Option String)),
      (∀ key ∈ keys, key.name ≠ k) →
      getParam (paramsLoop keys caps ps) k = getParam ps k := by
  intro keys
  induction keys with
  | nil => intro caps ps _; cases caps <;> rfl
  | cons key ks ih =>
    intro caps ps habs
    cases caps with
    | nil => rfl
    | cons c cs =>
      rw [paramsLoop]
      rw [ih cs _ (fun key hk => habs key (by simp [hk]))]
      exact getParam_setParam_ne ps key.name k (paramValue c) (habs key (by simp))

theorem getParam_paramsLoop_aligned :
    ∀ (keys : List Key) (caps : List (Option String))
      (ps : List (String × Option String)) (i : Nat) (key : Key) (c : Option String),
      (keys.map Key.name).Nodup →
      keys.get? i = some key →
      caps.get? i = some c →
      getParam (paramsLoop keys caps ps) key.name = some (paramValue c) := by
  intro keys
  induction keys with
  | nil => intro caps ps i key c _ hkey; simp at hkey
  | cons key0 ks ih =>
    intro caps ps i key c hnd hkey hcap
    cases caps with
    | nil => simp at hcap
    | cons c0 cs =>
      rw [List.map_cons, List.nodup_cons] at hnd
      cases i with
      | zero =>
        simp only [List.get?] at hkey hcap
        injection hkey with hkey
        injection hcap with hcap
        subst hkey
        subst hcap
        rw [paramsLoop]
        rw [getParam_paramsLoop_absent key0.name ks cs _ ?_]
        · exact getParam_setParam_self ps key0.name (paramValue c0)
        · intro key2 hk2 heq
          exact hnd.1 (heq ▸ List.mem_map_of_mem Key.name hk2)
      | succ j =>
        simp only [List.get?] at hkey hcap
        rw [paramsLoop]
        exact ih cs _ j key c hnd.2 hkey hcap

/-- C9. `Layer#params` never raises on a malformed percent escape: for an
aligned named parameter whose capture is a non-empty string, a failing decode
(`decodeURIComponent` throwing, modelled by `percentDecode? s = none`) makes
`safeDecodeURIComponent` return the raw string, and the raw captured substring
is what the params record stores; a successful decode stores the decoded
string. Matching itself (`Layer#match`, `Router#match`) never consults the
decoder, so a decode failure cannot turn a path match into a non-match. -/
theorem params_decode_failure_keeps_raw (l : Layer) (path : String)
    (captures : List (Option String)) (existing : List (String × Option String))
    (i : Nat) (key : Key) (s : String)
    (hnd : (l.paramNames.map Key.name).Nodup)
    (hkey : l.paramNames.get? i = some key)
    (hcap : captures.get? i = some (some s)) (hs : s ≠ "") :
    (percentDecode? s = none →
        safeDecodeURIComponent s = s
        ∧ getParam (l.params path captures existing) key.name = some (some s))
    ∧ (∀ d, percentDecode? s = some d →
        getParam (l.params path captures existing) key.name = some (some d)) := by
  have haligned := getParam_paramsLoop_aligned l.paramNames captures existing i key
    (some s) hnd hkey hcap
  constructor
  · intro hfail
    have hsafe : safeDecodeURIComponent s = s := by
      rw [safeDecodeURIComponent, hfail]
      rfl
    refine ⟨hsafe, ?_⟩
    rw [Layer.params, haligned, paramValue]
    simp [hs, hsafe]
  · intro d hok
    have hsafe : safeDecodeURIComponent s = d := by
      rw [safeDecodeURIComponent, hok]
      rfl
    rw [Layer.params, haligned, paramValue]
    simp [hs, hsafe]

/-- Witness for C9: on `usersLayer`, the malformed capture `%zz` is stored raw,
and the well-formed capture `%41` decodes to `A`. -/
theorem params_decode_failure_keeps_raw_witness :
    getParam (usersLayer.params "/users/%zz" [some "%zz"] []) "id" = some (some "%zz")
    ∧ getParam (usersLayer.params "/users/%41" [some "%41"] []) "id" = some (some "A") := by
  have h1 := params_decode_failure_keeps_raw usersLayer "/users/%zz" [some "%zz"] []
    0 { name := "id" } "%zz" (by simp [usersLayer]) rfl rfl (by decide)
  have h2 := params_decode_failure_keeps_raw usersLayer "/users/%41" [some "%41"] []
    0 { name := "id" } "%41" (by simp [usersLayer]) rfl rfl (by decide)
  exact ⟨(h1.1 (by rfl)).2, h2.2 "A" (by rfl)⟩

/-- The request-context routing fields read and written by the per-layer
wrapper middleware that `Router#routes()` builds (src/src/layer.ts lines
476-487): captures, accumulated params, `routerName`/`routerPath`, and the
compatibility aliases `_matchedRoute`/`_matchedRouteName`. -/
structure DispatchCtx where
  captures : List (Option String) := []
  params : List (String × Option String) := []
  matchedRoute : Option String := none
  matchedRouteName : Option String := none
  routerName : Option String := none
  routerPath : Option String := none

/-- JS truthiness of the optional layer name (the `if (!layer.name)` check):
an absent or empty-string name is falsy. -/
def nameTruthy : Option String → Bool
  | none => false
  | some s => !(s == "")

/-- The wrapper middleware pushed in front of one matched layer's stack by the
`reduce` in `Router#routes()` (src/src/layer.ts lines 476-487): recompute the
captures and params for the effective router path, assign
`ctx._matchedRouteName = ctx.routerName = layer.name` (then reset
`_matchedRouteName` to undefined when the name is falsy), and assign
`ctx._matchedRoute = ctx.routerPath = layer.path`, before calling `next()`. -/
def layerWrapper (routerPath : String) (layer : Layer) (ctx : DispatchCtx) : DispatchCtx :=
  let caps := layer.captures routerPath
  { ctx with
    captures := caps
    params := layer.params routerPath caps ctx.params
    routerName := layer.name
    matchedRouteName := if nameTruthy layer.name then layer.name else none
    matchedRoute := some layer.path
    routerPath := some layer.path }

/-- The sequence of context states observed right after each wrapper of the
dispatch chain runs, in chain order (a wrapper runs, then the layer's own
middleware stack, then the next layer's wrapper — `koa-compose` over the
`layerChain`, assuming every middleware calls `next`). -/
def chainStates (routerPath : String) (layers : List Layer) (ctx : DispatchCtx) :
    List DispatchCtx :=
  match layers with
  | [] => []
  | l :: ls =>
    let ctx1 := layerWrapper routerPath l ctx
    ctx1 :: chainStates routerPath ls ctx1

/-- A matcher that accepts every path with no capture groups, as compiled for
a catch-all pattern. -/
def catchAllMatcher : CompiledMatcher :=
  { test := fun _ => true
    exec := fun p => some [some p] }

/-- A broad GET layer for `/users/(.*)` registered before a specific one. -/
def broadLayer : Layer :=
  { name := none
    methods := ["HEAD", "GET"]
    stack := [{ paramProp := none, tag := 10 }]
    path := "/users/(.*)"
    matcher := catchAllMatcher
    paramNames := []
    ignoreCaptures := false }

/-- A specific GET layer for `/users/:id` registered after `broadLayer`. -/
def specificLayer : Layer :=
  { name := some "users#show"
    methods := ["HEAD", "GET"]
    stack := [{ paramProp := none, tag := 11 }]
    path := "/users/:id"
    matcher := usersMatcher
    paramNames := [{ name := "id" }]
    ignoreCaptures := false }

/-- Counterexample to C6 as stated: in the dispatch of src/src/layer.ts, with
two layers matched by path and method, `_matchedRoute` is written by every
wrapper as the chain runs — after the first wrapper it holds the first
(broad) layer's path, not the most specific (last) layer's path, and the
second wrapper then changes it. So the field is neither set once per dispatch
nor left unchanged during chain execution. -/
theorem matchedRoute_set_once_cex :
    ((chainStates "/users/3" [broadLayer, specificLayer] {}).map
        (fun c => c.matchedRoute))
      = [some "/users/(.*)", some "/users/:id"]
    ∧ (some "/users/(.*)" : Option String) ≠ some "/users/:id"
    ∧ specificLayer.path = "/users/:id" := by
  refine ⟨rfl, by decide, rfl⟩

/-- C6 (amended). In the dispatch built by `Router#routes()`
(src/src/layer.ts), `_matchedRoute` and `_matchedRouteName` are reassigned by
each matched layer's wrapper in chain order: after the k-th wrapper they hold
the k-th matched layer's display path and (truthy) name; in particular, when
the last wrapper has run they hold the most specific matched layer's path and
name. (The legacy dispatch in lib/router.js sets them once per dispatch, as
the original claim states.) -/
theorem matchedRoute_tracks_chain_hops (routerPath : String) (layers : List Layer)
    (ctx : DispatchCtx) :
    ((chainStates routerPath layers ctx).map (fun c => c.matchedRoute))
      = layers.map (fun l => some l.path)
    ∧ ((chainStates routerPath layers ctx).map (fun c => c.matchedRouteName))
      = layers.map (fun l => if nameTruthy l.name then l.name else none) := by
  induction layers generalizing ctx with
  | nil => exact ⟨rfl, rfl⟩
  | cons l ls ih =>
    obtain ⟨ih1, ih2⟩ := ih (layerWrapper routerPath l ctx)
    rw [chainStates]
    constructor
    · rw [List.map_cons, List.map_cons, ih1]
      rfl
    · rw [List.map_cons, List.map_cons, ih2]
      rfl

/-- The error objects `allowedMethods` can throw (`http-errors`
`NotImplemented` / `MethodNotAllowed`, or a caller-supplied override returned
by the `notImplemented`/`methodNotAllowed` factory options). -/
inductive HttpErrObj where
  | notImplemented
  | methodNotAllowed
  | custom (tag : Nat)
deriving Repr, DecidableEq

/-- The options of `Router#allowedMethods` (src/src/layer.ts
`AllowedMethodsOptions`): the `throw` flag and the optional error factories
(modelled by the error value a factory would return). -/
structure AllowedMethodsOptions where
  throwOpt : Bool := false
  notImplementedF : Option HttpErrObj := none
  methodNotAllowedF : Option HttpErrObj := none
deriving Repr, DecidableEq

/-- The context fields `allowedMethods` reads and writes after `next()`
settles: response status (`none` = unset), request method, the accumulated
path-matched layers (`ctx.matched`), response headers (`ctx.set`) and body. -/
structure AmCtx where
  status : Option Nat := none
  method : String := ""
  matched : List Layer := []
  headers : List (String × String) := []
  body : Option String := none

/-- JS truthiness of `ctx.status` (`if (ctx.status && ...)`): unset or zero is
falsy. -/
def statusTruthy : Option Nat → Bool
  | none => false
  | some s => !(s == 0)

/-- `ctx.set(k, v)`: overwrite an existing response header in place, else
append it. -/
def setHeader (headers : List (String × String)) (k v : String) :
    List (String × String) :=
  if headers.any (fun p => p.1 == k) then
    headers.map (fun p => if p.1 == k then (k, v) else p)
  else headers ++ [(k, v)]

/-- The `allowed` accumulation of `allowedMethods` (src/src/layer.ts lines
554-560): walk the matched layers, then each layer's methods, assigning
`allowed[method] = method` into a JS object; `Object.keys` then lists the
methods in first-assignment order. -/
def collectAllowed (matched : List Layer) : List String :=
  (matched.flatMap (fun l => l.methods)).foldl
    (fun ks m => if ks.contains m then ks else ks ++ [m]) []

/-- First-seen de-duplication, stated independently: keep each element's first
occurrence and drop every later duplicate. -/
def firstSeenNub : List String → List String
  | [] => []
  | a :: l => a :: firstSeenNub (l.filter (fun b => !(b == a)))
termination_by l => l.length
decreasing_by simpa using Nat.lt_succ_of_le (List.length_filter_le _ _)

/-- `Router#allowedMethods(options)` (src/src/layer.ts lines 547-596), as the
continuation that runs once `next()` has settled with the context in the given
state: return unchanged when a status other than 404 is already set; otherwise
collect the de-duplicated method union over the path-matched layers and decide
501 / OPTIONS 200 / 405 (or throw when `options.throw` is set), attaching an
`Allow` header (comma-space joined) in the non-throwing branches. -/
def Router.allowedMethodsRun (r : Router) (opts : AllowedMethodsOptions)
    (ctx : AmCtx) : Except HttpErrObj AmCtx :=
  let implemented := r.methods
  if statusTruthy ctx.status && !(ctx.status == some 404) then .ok ctx
  else
    let allowedList := collectAllowed ctx.matched
    if !(implemented.contains ctx.method) then
      if opts.throwOpt then .error (opts.notImplementedF.getD .notImplemented)
      else .ok { ctx with
                 status := some 501
                 headers := setHeader ctx.headers "Allow"
                   (String.intercalate ", " allowedList) }
    else if 0 < allowedList.length then
      if ctx.method == "OPTIONS" then
        .ok { ctx with
              status := some 200
              body := some ""
              headers := setHeader ctx.headers "Allow"
                (String.intercalate ", " allowedList) }
      else if !(allowedList.contains ctx.method) then
        if opts.throwOpt then .error (opts.methodNotAllowedF.getD .methodNotAllowed)
        else .ok { ctx with
                   status := some 405
                   headers := setHeader ctx.headers "Allow"
                     (String.intercalate ", " allowedList) }
      else .ok ctx
    else .ok ctx

theorem firstSeenNub_mem (m : String) :
    ∀ l : List String, m ∈ firstSeenNub l ↔ m ∈ l := by
  intro l
  induction l using firstSeenNub.induct with
  | case1 => rw [firstSeenNub]
  | case2 a l ih =>
    rw [firstSeenNub]
    constructor
    · intro h
      rcases List.mem_cons.mp h with h | h
      · simp [h]
      · have := (ih.mp h)
        exact List.mem_cons.mpr (Or.inr (List.mem_filter.mp this).1)
    · intro h
      rcases List.mem_cons.mp h with h | h
      · simp [h]
      · by_cases hma : m = a
        · simp [hma]
        · refine List.mem_cons.mpr (Or.inr (ih.mpr ?_))
          exact List.mem_filter.mpr ⟨h, by simp [hma]⟩

theorem firstSeenNub_nodup : ∀ l : List String, (firstSeenNub l).Nodup := by
  intro l
  induction l using firstSeenNub.induct with
  | case1 => rw [firstSeenNub]; exact List.nodup_nil
  | case2 a l ih =>
    rw [firstSeenNub]
    refine List.nodup_cons.mpr ⟨?_, ih⟩
    intro hmem
    have := (firstSeenNub_mem a _).mp hmem
    have := (List.mem_filter.mp this).2
    simp at this

theorem collect_foldl_eq (l : List String) :
    ∀ acc : List String,
      l.foldl (fun ks m => if ks.contains m then ks else ks ++ [m]) acc
        = acc ++ firstSeenNub (l.filter (fun m => !(acc.contains m))) := by
  induction l with
  | nil => intro acc; rw [List.filter_nil, firstSeenNub]; simp
  | cons m l ih =>
    intro acc
    rw [List.foldl_cons]
    by_cases hc : acc.contains m = true
    · rw [if_pos hc, ih acc]
      rw [@List.filter_cons_of_neg String (fun x => !(acc.contains x)) m l
        (by show ¬ (!(acc.contains m)) = true; rw [hc]; simp)]
    · have hc' : acc.contains m = false := Bool.eq_false_iff.mpr hc
      rw [if_neg (by rw [hc']; simp), ih (acc ++ [m])]
      rw [@List.filter_cons_of_pos String (fun x => !(acc.contains x)) m l
        (by show (!(acc.contains m)) = true; rw [hc']; rfl)]
      rw [firstSeenNub]
      rw [List.filter_filter]
      have hpt : ∀ x ∈ l,
          ((fun x => !((acc ++ [m]).contains x)) x)
            = ((fun x => (!(x == m)) && !(acc.contains x)) x) := by
        intro x _
        by_cases hxm : x = m
        · subst hxm
          simp [List.contains, List.elem_eq_mem]
        · by_cases hxa : x ∈ acc
          · simp [List.contains, List.elem_eq_mem, hxm, hxa]
          · simp [List.contains, List.elem_eq_mem, hxm, hxa]
      rw [List.filter_congr hpt]
      simp

/-- `collectAllowed` computes exactly the first-seen de-duplication of the
concatenated method lists of the matched layers. -/
theorem collectAllowed_eq_firstSeenNub (matched : List Layer) :
    collectAllowed matched
      = firstSeenNub (matched.flatMap (fun l => l.methods)) := by
  rw [collectAllowed, collect_foldl_eq]
  rw [List.nil_append]
  have hpt : ∀ x ∈ matched.flatMap (fun l => l.methods),
      ((fun m => !((List.nil (α := String)).contains m)) x) = ((fun _ => true) x) := by
    intro x _
    rfl
  rw [List.filter_congr hpt, List.filter_true]

theorem amGuard_false (ctx : AmCtx) (hstatus : ctx.status = none ∨ ctx.status = some 404) :
    (statusTruthy ctx.status && !(ctx.status == some 404)) = false := by
  rcases hstatus with h | h <;> rw [h] <;> rfl

/-- C5. The `allowedMethods` middleware of a router with the default
implemented-method list, once `next()` has settled with the status unset or
404: the collected union is the de-duplicated, first-seen-ordered union of the
matched layers' methods; an unimplemented request method yields status 501; an
OPTIONS request with a non-empty union yields status 200 with an `Allow`
header joining the union with comma-space; an implemented method outside a
non-empty union yields 405 with the same `Allow` header; and with the `throw`
option set the latter two error cases throw the configured (or default)
not-implemented / method-not-allowed error object instead — the context, and
so its `Allow` header, is left untouched on those paths. -/
theorem allowedMethods_status_contract (r : Router) (opts : AllowedMethodsOptions)
    (ctx : AmCtx) (hr : r.methods = defaultMethods)
    (hstatus : ctx.status = none ∨ ctx.status = some 404) :
    (collectAllowed ctx.matched
        = firstSeenNub (ctx.matched.flatMap (fun l => l.methods))
      ∧ (collectAllowed ctx.matched).Nodup
      ∧ (∀ m, m ∈ collectAllowed ctx.matched ↔ ∃ l ∈ ctx.matched, m ∈ l.methods))
    ∧ (ctx.method ∉ defaultMethods → opts.throwOpt = false →
        r.allowedMethodsRun opts ctx
          = .ok { ctx with
                  status := some 501
                  headers := setHeader ctx.headers "Allow"
                    (String.intercalate ", " (collectAllowed ctx.matched)) })
    ∧ (ctx.method = "OPTIONS" → collectAllowed ctx.matched ≠ [] →
        r.allowedMethodsRun opts ctx
          = .ok { ctx with
                  status := some 200
                  body := some ""
                  headers := setHeader ctx.headers "Allow"
                    (String.intercalate ", " (collectAllowed ctx.matched)) })
    ∧ (ctx.method ∈ defaultMethods → ctx.method ≠ "OPTIONS" →
        collectAllowed ctx.matched ≠ [] → ctx.method ∉ collectAllowed ctx.matched →
        opts.throwOpt = false →
        r.allowedMethodsRun opts ctx
          = .ok { ctx with
                  status := some 405
                  headers := setHeader ctx.headers "Allow"
                    (String.intercalate ", " (collectAllowed ctx.matched)) })
    ∧ (opts.throwOpt = true → ctx.method ∉ defaultMethods →
        r.allowedMethodsRun opts ctx
          = .error (opts.notImplementedF.getD .notImplemented))
    ∧ (opts.throwOpt = true → ctx.method ∈ defaultMethods → ctx.method ≠ "OPTIONS" →
        collectAllowed ctx.matched ≠ [] → ctx.method ∉ collectAllowed ctx.matched →
        r.allowedMethodsRun opts ctx
          = .error (opts.methodNotAllowedF.getD .methodNotAllowed)) := by
  have hguard : ¬ (statusTruthy ctx.status && !(ctx.status == some 404)) = true := by
    rw [amGuard_false ctx hstatus]
    simp
  refine ⟨⟨collectAllowed_eq_firstSeenNub ctx.matched, ?_, ?_⟩, ?_, ?_, ?_, ?_, ?_⟩
  · rw [collectAllowed_eq_firstSeenNub]
    exact firstSeenNub_nodup _
  · intro m
    rw [collectAllowed_eq_firstSeenNub, firstSeenNub_mem]
    exact List.mem_flatMap
  · intro hmethod hthrow
    have himpl : (r.methods.contains ctx.method) = false := by
      rw [hr]
      simp [List.contains, List.elem_eq_mem, hmethod]
    simp only [Router.allowedMethodsRun]
    rw [if_neg hguard, if_pos (by rw [himpl]; rfl), if_neg (by rw [hthrow]; simp)]
  · intro hopt hne
    have himpl : (r.methods.contains ctx.method) = true := by
      rw [hr, hopt]
      rfl
    have hlen : 0 < (collectAllowed ctx.matched).length := List.length_pos.mpr hne
    have hbeq : (ctx.method == "OPTIONS") = true := by rw [hopt]; rfl
    simp only [Router.allowedMethodsRun]
    rw [if_neg hguard, if_neg (by rw [himpl]; simp), if_pos hlen, if_pos hbeq]
  · intro hmem hnopt hne hnotin hthrow
    have himpl : (r.methods.contains ctx.method) = true := by
      rw [hr]
      simp [List.contains, List.elem_eq_mem, hmem]
    have hlen : 0 < (collectAllowed ctx.matched).length := List.length_pos.mpr hne
    have hbeq : (ctx.method == "OPTIONS") = false := by simp [hnopt]
    have hcont : ((collectAllowed ctx.matched).contains ctx.method) = false := by
      simp [List.contains, List.elem_eq_mem, hnotin]
    simp only [Router.allowedMethodsRun]
    rw [if_neg hguard, if_neg (by rw [himpl]; simp), if_pos hlen,
      if_neg (by rw [hbeq]; simp), if_pos (by rw [hcont]; rfl),
      if_neg (by rw [hthrow]; simp)]
  · intro hthrow hmethod
    have himpl : (r.methods.contains ctx.method) = false := by
      rw [hr]
      simp [List.contains, List.elem_eq_mem, hmethod]
    simp only [Router.allowedMethodsRun]
    rw [if_neg hguard, if_pos (by rw [himpl]; rfl), if_pos hthrow]
  · intro hthrow hmem hnopt hne hnotin
    have himpl : (r.methods.contains ctx.method) = true := by
      rw [hr]
      simp [List.contains, List.elem_eq_mem, hmem]
    have hlen : 0 < (collectAllowed ctx.matched).length := List.length_pos.mpr hne
    have hbeq : (ctx.method == "OPTIONS") = false := by simp [hnopt]
    have hcont : ((collectAllowed ctx.matched).contains ctx.method) = false := by
      simp [List.contains, List.elem_eq_mem, hnotin]
    simp only [Router.allowedMethodsRun]
    rw [if_neg hguard, if_neg (by rw [himpl]; simp), if_pos hlen,
      if_neg (by rw [hbeq]; simp), if_pos (by rw [hcont]; rfl), if_pos hthrow]

/-- A GET layer on `/users`, as `router.get('/users', handler)` registers it
(HEAD synthesized in front of GET). -/
def getUsersLayer : Layer :=
  { name := none
    methods := ["HEAD", "GET"]
    stack := [{ paramProp := none, tag := 20 }]
    path := "/users"
    matcher := catchAllMatcher
    paramNames := []
    ignoreCaptures := false }

/-- A PUT layer on `/users`, as `router.put('/users', handler)` registers it. -/
def putUsersLayer : Layer :=
  { name := none
    methods := ["PUT"]
    stack := [{ paramProp := none, tag := 21 }]
    path := "/users"
    matcher := catchAllMatcher
    paramNames := []
    ignoreCaptures := false }

/-- The router of the spec's allowedMethods example: only GET and PUT
registered on `/users`, default method list. -/
def usersOnlyRouter : Router :=
  { stack := [getUsersLayer, putUsersLayer]
    params := []
    methods := defaultMethods }

/-- The settled context of an OPTIONS request to `/users` on that router. -/
def optionsCtx : AmCtx :=
  { status := none
    method := "OPTIONS"
    matched := [getUsersLayer, putUsersLayer]
    headers := []
    body := none }

/-- The settled context of a POST request to `/users` on that router. -/
def postCtx : AmCtx :=
  { status := none
    method := "POST"
    matched := [getUsersLayer, putUsersLayer]
    headers := []
    body := none }

/-- Witness for C5, the spec's example: OPTIONS yields 200 with
`Allow: HEAD, GET, PUT`; POST yields 405 with the same header when `throw` is
unset, and throws the method-not-allowed error object (leaving the context,
hence its headers, untouched) when `throw` is set. -/
theorem allowedMethods_status_contract_witness :
    usersOnlyRouter.allowedMethodsRun { throwOpt := false } optionsCtx
      = .ok { optionsCtx with
              status := some 200
              body := some ""
              headers := [("Allow", "HEAD, GET, PUT")] }
    ∧ usersOnlyRouter.allowedMethodsRun { throwOpt := false } postCtx
      = .ok { postCtx with
              status := some 405
              headers := [("Allow", "HEAD, GET, PUT")] }
    ∧ usersOnlyRouter.allowedMethodsRun { throwOpt := true } postCtx
      = .error .methodNotAllowed := by
  have h1 := allowedMethods_status_contract usersOnlyRouter { throwOpt := false }
    optionsCtx rfl (Or.inl rfl)
  have h2 := allowedMethods_status_contract usersOnlyRouter { throwOpt := false }
    postCtx rfl (Or.inl rfl)
  have h3 := allowedMethods_status_contract usersOnlyRouter { throwOpt := true }
    postCtx rfl (Or.inl rfl)
  refine ⟨?_, ?_, ?_⟩
  · rw [h1.2.2.1 rfl (by decide)]
    rfl
  · rw [h2.2.2.2.1 (by decide) (by decide) (by decide) (by decide) rfl]
    rfl
  · exact h3.2.2.2.2.2 rfl (by decide) (by decide) (by decide) (by decide)

/-- `[a-zA-Z_]` — the first character of a `:name` placeholder (the capture
group of EggRouter.url's `/:([a-zA-Z_]\\w*)/g` and the leading character of a
`path-to-regexp` named token). -/
def isNameStart (c : Char) : Bool :=
  c.isAlpha || c == '_'

/-- `\\w` — a subsequent character of a placeholder name. -/
def isWordChar (c : Char) : Bool :=
  c.isAlphanum || c == '_'

/-- A token of a path template: a literal character or a `:name` placeholder. -/
inductive UrlToken where
  | lit (c : Char)
  | par (name : String)
deriving Repr, DecidableEq

/-- Scanner state for `tokenizeAux`: between tokens, right after a `:`, or
inside a placeholder name (accumulated in reverse). -/
inductive TokState where
  | normal
  | afterColon
  | inName (acc : List Char)

/-- One-character-at-a-time tokenizer for the placeholder pattern
`:([a-zA-Z_]\\w*)` with maximal-munch names, scanning left to right exactly as
the JS global regex replace does. -/
def tokenizeAux : List Char → TokState → List UrlToken
  | [], .normal => []
  | [], .afterColon => [.lit ':']
  | [], .inName acc => [.par (String.mk acc.reverse)]
  | c :: rest, .normal =>
    if c == ':' then tokenizeAux rest .afterColon
    else .lit c :: tokenizeAux rest .normal
  | c :: rest, .afterColon =>
    if isNameStart c then tokenizeAux rest (.inName [c])
    else
      .lit ':' ::
        (if c == ':' then tokenizeAux rest .afterColon
         else .lit c :: tokenizeAux rest .normal)
  | c :: rest, .inName acc =>
    if isWordChar c then tokenizeAux rest (.inName (c :: acc))
    else
      .par (String.mk acc.reverse) ::
        (if c == ':' then tokenizeAux rest .afterColon
         else .lit c :: tokenizeAux rest .normal)

/-- Tokenize a path template (the shallow embedding of both the
`pathToRegExp.parse` named-token view used by `Layer#url` and the
`/:([a-zA-Z_]\\w*)/g` replace of `EggRouter#url`). -/
def tokenizePattern (s : String) : List UrlToken :=
  tokenizeAux s.toList .normal

/-- Key lookup in a string-valued argument mapping (`key in args` /
`args[key]`). -/
def lookupArg (args : List (String × String)) (k : String) : Option String :=
  (args.find? (fun p => p.1 == k)).map (fun p => p.2)

/-- Modelled from the spec (section 4.1): rendering one token of the reverse
template — a placeholder becomes the encoded value when one is supplied and
stays as the literal `:name` text when the value is missing. -/
def renderToken (lookup : String → Option String) (encode : String → String) :
    UrlToken → String
  | .lit c => String.singleton c
  | .par n =>
    match lookup n with
    | some v => encode v
    | none => ":" ++ n

/-- Render a full token list (the reverse compiler `toPath` of spec 4.1 and
the accumulated output of the global replace in `EggRouter#url`). -/
def renderTokens (lookup : String → Option String) (encode : String → String) :
    List UrlToken → String
  | [] => ""
  | t :: ts => renderToken lookup encode t ++ renderTokens lookup encode ts

/-- `this.path.replace(/\\(\\.\\*\\)/g, '')` in `Layer#url`: drop every literal
`(.*)` occurrence. -/
def stripStar : List Char → List Char
  | '(' :: '.' :: '*' :: ')' :: rest => stripStar rest
  | c :: rest => c :: stripStar rest
  | [] => []

/-- `Layer#url(params)` for the keyed-mapping call shape (src/src/Layer.ts
lines 155-205): strip the `(.*)` markers, tokenize the template, use the
mapping as the replace table when the template has a named token (otherwise
the mapping is treated as `options`), reverse-render (missing values keep
their `:name` placeholder, per the external compiler's contract in spec 4.1),
and append `options.query` when present (the `urijs` search call, modelled as
a plain query-string append). `encode` is the external value encoder. -/
def Layer.url (encode : String → String) (l : Layer)
    (args : List (String × String)) : String :=
  let url := String.mk (stripStar l.path.toList)
  let tokens := tokenizePattern url
  let hasNamed := tokens.any (fun t =>
    match t with
    | .par _ => true
    | .lit _ => false)
  let lookup : String → Option String :=
    if hasNamed then lookupArg args else fun _ => none
  let replaced := renderTokens lookup encode tokens
  let queryOpt : Option String := if hasNamed then none else lookupArg args "query"
  match queryOpt with
  | some q => replaced ++ "?" ++ q
  | none => replaced

/-- `Router#route(name)` (src/src/layer.ts lines 700-707): the first layer of
the stack whose name strictly equals the query (an unnamed layer never
matches). -/
def Router.route (r : Router) (name : String) : Option Layer :=
  r.stack.find? (fun l => l.name == some name)

/-- `Router#url(name, params)` (src/src/layer.ts lines 743-750): delegate to
the first layer with the given name, else return (not throw) an `Error` value
carrying the not-found message. -/
def Router.url (encode : String → String) (r : Router) (name : String)
    (args : List (String × String)) : Except String String :=
  match r.route name with
  | some route => .ok (Layer.url encode route args)
  | none => .error ("No route found for name: " ++ name)

/-- `EggRouter#url(name, params)` (src/src/EggRouter.ts lines 254-301): return
the empty string when no layer has the given name; otherwise replace each
`:name` placeholder whose key is in `params` with the encoded value (recording
it in `replacedParams`), keep other placeholders literal, and append every
unused key as a query-string pair joined by `&` (after `?`, or `&` when the
url already contains `?`). String-valued params model the scalar case of the
source's `string | number | array` values. -/
def EggRouter.url (encode : String → String) (r : Router) (name : String)
    (args : List (String × String)) : String :=
  match r.route name with
  | none => ""
  | some route =>
    let tokens := tokenizePattern route.path
    let url := renderTokens (lookupArg args) encode tokens
    let replacedParams := tokens.filterMap (fun t =>
      match t with
      | .par n => if (lookupArg args n).isSome then some n else none
      | .lit _ => none)
    let queries := args.filterMap (fun p =>
      if replacedParams.contains p.1 then none
      else some (encode p.1 ++ "=" ++ encode p.2))
    if 0 < queries.length then
      if url.contains '?' then url ++ "&" ++ String.intercalate "&" queries
      else url ++ "?" ++ String.intercalate "&" queries
    else url

theorem renderTokens_missing_param (lookup : String → Option String)
    (encode : String → String) (n : String) (hmiss : lookup n = none) :
    ∀ tokens : List UrlToken, UrlToken.par n ∈ tokens →
      ∃ A B, renderTokens lookup encode tokens = A ++ (":" ++ n) ++ B := by
  intro tokens
  induction tokens with
  | nil => intro h; simp at h
  | cons t ts ih =>
    intro h
    rcases List.mem_cons.mp h with h | h
    · refine ⟨"", renderTokens lookup encode ts, ?_⟩
      rw [renderTokens, ← h, renderToken, hmiss, String.empty_append]
    · obtain ⟨A, B, hAB⟩ := ih h
      refine ⟨renderToken lookup encode t ++ A, B, ?_⟩
      rw [renderTokens, hAB]
      simp [String.append_assoc]

theorem exists_mid_append (x s t : String) (h : ∃ A B, s = A ++ x ++ B) :
    ∃ A B, s ++ t = A ++ x ++ B := by
  obtain ⟨A, B, hs⟩ := h
  refine ⟨A, B ++ t, ?_⟩
  rw [hs]
  simp [String.append_assoc]

/-- C7. URL generation is lenient about missing parameters: for a layer with a
string pattern and an argument mapping with no value for the named parameter
`n`, both `Layer#url` and `EggRouter#url` (by route name) return a path string
in which the unset parameter survives as its literal `:n` placeholder — both
functions are total (they return a string; nothing throws for a missing
value, per the reverse-compiler contract of spec 4.1). -/
theorem url_missing_params_keep_placeholders (encode : String → String)
    (args : List (String × String)) (n : String) (hmiss : lookupArg args n = none) :
    (∀ l : Layer,
        UrlToken.par n ∈ tokenizePattern (String.mk (stripStar l.path.toList)) →
        ∃ A B, Layer.url encode l args = A ++ (":" ++ n) ++ B)
    ∧ (∀ (r : Router) (name : String) (route : Layer),
        r.route name = some route →
        UrlToken.par n ∈ tokenizePattern route.path →
        ∃ A B, EggRouter.url encode r name args = A ++ (":" ++ n) ++ B) := by
  constructor
  · intro l hn
    rw [Layer.url]
    have hnamed : ((tokenizePattern (String.mk (stripStar l.path.toList))).any (fun t =>
        match t with
        | .par _ => true
        | .lit _ => false)) = true :=
      List.any_eq_true.mpr ⟨UrlToken.par n, hn, rfl⟩
    rw [if_pos hnamed, if_pos hnamed]
    exact renderTokens_missing_param (lookupArg args) encode n hmiss _ hn
  · intro r name route hroute hn
    rw [EggRouter.url, hroute]
    dsimp only
    obtain ⟨A, B, hAB⟩ :=
      renderTokens_missing_param (lookupArg args) encode n hmiss _ hn
    split
    · split
      · exact exists_mid_append _ _ _ (exists_mid_append _ _ _ ⟨A, B, hAB⟩)
      · exact exists_mid_append _ _ _ (exists_mid_append _ _ _ ⟨A, B, hAB⟩)
    · exact ⟨A, B, hAB⟩

/-- The layer of the spec's URL round-trip example: `/:category/:title`. -/
def booksLayer : Layer :=
  { name := some "books"
    methods := ["HEAD", "GET"]
    stack := [{ paramProp := none, tag := 40 }]
    path := "/:category/:title"
    matcher := catchAllMatcher
    paramNames := [{ name := "category" }, { name := "title" }]
    ignoreCaptures := false }

/-- Witness for C7: with only `category` supplied, both generators leave
`:title` literally in the produced path (encoder: identity). -/
theorem url_missing_params_keep_placeholders_witness :
    (∃ A B, Layer.url (fun s => s) booksLayer [("category", "programming")]
        = A ++ (":" ++ "title") ++ B)
    ∧ Layer.url (fun s => s) booksLayer [("category", "programming")]
        = "/programming/:title" := by
  have h := url_missing_params_keep_placeholders (fun s => s)
    [("category", "programming")] "title" rfl
  exact ⟨h.1 booksLayer (by decide), rfl⟩

/-- A named layer whose pattern is the empty string, registered under the name
`home`; generating its URL with no params yields the empty string. -/
def homeLayer : Layer :=
  { name := some "home"
    methods := ["HEAD", "GET"]
    stack := [{ paramProp := none, tag := 30 }]
    path := ""
    matcher := catchAllMatcher
    paramNames := []
    ignoreCaptures := false }

/-- A router holding only `homeLayer`. -/
def namedRouter : Router :=
  { stack := [homeLayer]
    params := []
    methods := defaultMethods }

/-- Counterexample to C8 as stated: `EggRouter#url` (src/src/EggRouter.ts line
255, one of the claim's sources) returns the plain empty string for an unknown
route name — not an error value, and equal to the successfully generated URL
of the empty-pattern route `home`, hence not distinguishable from every
successfully generated string. -/
theorem egg_url_missing_name_indistinguishable_cex :
    namedRouter.route "missing-name" = none
    ∧ EggRouter.url (fun s => s) namedRouter "missing-name" [] = ""
    ∧ namedRouter.route "home" = some homeLayer
    ∧ EggRouter.url (fun s => s) namedRouter "home" [] = "" :=
  ⟨rfl, rfl, rfl, rfl⟩

/-- C8 (amended). The base `Router#url` returns an explicit `Error` value (not
thrown) for a name no layer carries — distinguishable by construction from
every generated string — and the generated string of the first name-matching
layer in registration order otherwise (`route` is a first-match scan of the
stack); `EggRouter#url`, by contrast, returns the empty string for an unknown
name, which coincides with a successfully generated empty URL. -/
theorem url_not_found_behavior (encode : String → String) (r : Router)
    (name : String) (args : List (String × String)) :
    (r.route name = none →
        Router.url encode r name args = .error ("No route found for name: " ++ name)
        ∧ EggRouter.url encode r name args = "")
    ∧ (∀ route, r.route name = some route →
        Router.url encode r name args = .ok (Layer.url encode route args))
    ∧ r.route name = r.stack.find? (fun l => l.name == some name) := by
  refine ⟨?_, ?_, rfl⟩
  · intro hnone
    constructor
    · rw [Router.url, hnone]
    · rw [EggRouter.url, hnone]
  · intro route hsome
    rw [Router.url, hsome]

/-- Witness for C8 (amended) on `namedRouter`: an unknown name yields the
`Error` value and the empty string respectively; the known name `home` yields
the generated URL of its first matching layer. -/
theorem url_not_found_behavior_witness :
    Router.url (fun s => s) namedRouter "missing-name" []
      = .error "No route found for name: missing-name"
    ∧ EggRouter.url (fun s => s) namedRouter "missing-name" [] = ""
    ∧ Router.url (fun s => s) namedRouter "home" []
      = .ok (Layer.url (fun s => s) homeLayer []) := by
  have h1 := url_not_found_behavior (fun s => s) namedRouter "missing-name" []
  have h2 := url_not_found_behavior (fun s => s) namedRouter "home" []
  refine ⟨?_, (h1.1 rfl).2, h2.2.1 homeLayer rfl⟩
  rw [(h1.1 rfl).1]
  rfl

theorem Layer.param_paramNames (p : String) (t : Nat) (l : Layer) :
    (Layer.param p t l).paramNames = l.paramNames := by
  unfold Layer.param
  dsimp only
  split <;> rfl

theorem jsIndexOf_gt_neg_one (l : List String) (s : String) (h : s ∈ l) :
    jsIndexOf l s > -1 := by
  rw [jsIndexOf, if_pos h]
  omega

theorem Layer.param_stack_of_mem (p : String) (t : Nat) (l : Layer)
    (hp : p ∈ l.paramNames.map Key.name) :
    (Layer.param p t l).stack
      = spliceBefore (l.paramNames.map Key.name)
          (jsIndexOf (l.paramNames.map Key.name) p)
          { paramProp := some p, tag := t } l.stack := by
  unfold Layer.param
  dsimp only
  rw [if_pos (jsIndexOf_gt_neg_one _ p hp)]

theorem spliceBefore_cons_stop (names : List String) (x : Int) (mw fn : StackFn)
    (rest : List StackFn) (h : stopHere names x fn = true) :
    spliceBefore names x mw (fn :: rest) = mw :: fn :: rest := by
  rw [spliceBefore, if_pos h]

theorem spliceBefore_append_skip (names : List String) (x : Int) (mw : StackFn) :
    ∀ (ws rest : List StackFn), (∀ fn ∈ ws, stopHere names x fn = false) →
      spliceBefore names x mw (ws ++ rest) = ws ++ spliceBefore names x mw rest := by
  intro ws
  induction ws with
  | nil => intro rest _; simp
  | cons fn ws ih =>
    intro rest hall
    rw [List.cons_append, spliceBefore, if_neg (by rw [hall fn (by simp)]; simp)]
    rw [ih rest (fun g hg => hall g (by simp [hg]))]
    rfl

theorem spliceBefore_eq_insertIdx (names : List String) (x : Int) (mw : StackFn) :
    ∀ stack : List StackFn, stack.any (stopHere names x) = true →
      spliceBefore names x mw stack
        = stack.insertIdx (stack.findIdx (stopHere names x)) mw := by
  intro stack
  induction stack with
  | nil => intro h; simp at h
  | cons fn rest ih =>
    intro h
    by_cases hs : stopHere names x fn = true
    · rw [spliceBefore, if_pos hs, List.findIdx_cons, hs]
      simp
    · have hrest : rest.any (stopHere names x) = true := by
        rw [List.any_cons] at h
        rcases Bool.or_eq_true_iff.mp h with h1 | h1
        · exact absurd h1 hs
        · exact h1
      have hsf : stopHere names x fn = false := Bool.eq_false_iff.mpr hs
      rw [spliceBefore, if_neg hs, List.findIdx_cons, hsf]
      simp only [Bool.cond_false]
      rw [List.insertIdx_succ_cons, ih hrest]

theorem splice_into_sorted (names : List String) (f : String → Nat) (base : StackFn)
    (hbase : base.paramProp = none) (hnd : names.Nodup)
    (hne : ∀ m ∈ names, m ≠ "") (S : List String) (n : String)
    (hn : n ∈ names) (hnS : n ∉ S) :
    spliceBefore names (jsIndexOf names n) { paramProp := some n, tag := f n }
        ((names.filter (fun m => S.contains m)).map
          (fun m => { paramProp := some m, tag := f m }) ++ [base])
      = (names.filter (fun m => S.contains m || m == n)).map
          (fun m => { paramProp := some m, tag := f m }) ++ [base] := by
  obtain ⟨u, v, huv⟩ := List.append_of_mem hn
  subst huv
  have hdisj : u.Disjoint (n :: v) := List.disjoint_of_nodup_append hnd
  have hnu : n ∉ u := fun hmem => hdisj hmem (by simp)
  have hnv : n ∉ v := by
    have h1 := List.nodup_middle.mp hnd
    have h2 := (List.nodup_cons.mp h1).1
    intro hmem
    exact h2 (by simp [hmem])
  have hx : jsIndexOf (u ++ n :: v) n = (u.length : Int) := by
    rw [jsIndexOf, if_pos hn, List.indexOf_append_of_not_mem hnu,
      List.indexOf_cons_self]
    simp
  have hstopu : ∀ m ∈ u,
      stopHere (u ++ n :: v) (jsIndexOf (u ++ n :: v) n)
        { paramProp := some m, tag := f m } = false := by
    intro m hm
    have hmne : m ≠ "" := hne m (by simp [hm])
    have hlt : List.indexOf m u < u.length := List.indexOf_lt_length.mpr hm
    simp only [stopHere]
    rw [if_neg hmne]
    apply decide_eq_false
    rw [jsIndexOf, if_pos (by simp [hm] : m ∈ u ++ n :: v),
      List.indexOf_append_of_mem hm, hx]
    omega
  have hstopv : ∀ m ∈ v,
      stopHere (u ++ n :: v) (jsIndexOf (u ++ n :: v) n)
        { paramProp := some m, tag := f m } = true := by
    intro m hm
    have hmne : m ≠ "" := hne m (by simp [hm])
    have hmnu : m ∉ u := fun hmem => hdisj hmem (by simp [hm])
    have hmn : n ≠ m := fun h => hnv (h ▸ hm)
    simp only [stopHere]
    rw [if_neg hmne]
    have hidx : List.indexOf m (u ++ n :: v)
        = u.length + (List.indexOf m v).succ := by
      rw [List.indexOf_append_of_not_mem hmnu, List.indexOf_cons_ne v hmn]
    have : jsIndexOf (u ++ n :: v) m > jsIndexOf (u ++ n :: v) n := by
      rw [jsIndexOf, if_pos (by simp [hm] : m ∈ u ++ n :: v), hidx, hx]
      omega
    rw [decide_eq_true this]
  have hstopb : stopHere (u ++ n :: v) (jsIndexOf (u ++ n :: v) n) base = true := by
    simp only [stopHere, hbase]
  have hcontn : (S.contains n) = false := by
    simp [List.contains, List.elem_eq_mem, hnS]
  have hfilS : (u ++ n :: v).filter (fun m => S.contains m)
      = u.filter (fun m => S.contains m) ++ v.filter (fun m => S.contains m) := by
    rw [List.filter_append,
      @List.filter_cons_of_neg String (fun m => S.contains m) n v
        (by show ¬ (S.contains n) = true; rw [hcontn]; simp)]
  have hfilS2 : (u ++ n :: v).filter (fun m => S.contains m || m == n)
      = u.filter (fun m => S.contains m)
        ++ n :: v.filter (fun m => S.contains m) := by
    rw [List.filter_append,
      @List.filter_cons_of_pos String (fun m => S.contains m || m == n) n v
        (by simp)]
    have hu : u.filter (fun m => S.contains m || m == n)
        = u.filter (fun m => S.contains m) := by
      apply List.filter_congr
      intro m hm
      have : (m == n) = false := by
        have : m ≠ n := fun h => hnu (h ▸ hm)
        simp [this]
      rw [this]
      simp
    have hv : v.filter (fun m => S.contains m || m == n)
        = v.filter (fun m => S.contains m) := by
      apply List.filter_congr
      intro m hm
      have : (m == n) = false := by
        have : m ≠ n := fun h => hnv (h ▸ hm)
        simp [this]
      rw [this]
      simp
    rw [hu, hv]
  rw [hfilS, hfilS2, List.map_append, List.append_assoc]
  rw [spliceBefore_append_skip _ _ _ _ _ ?hskip]
  case hskip =>
    intro fn hfn
    obtain ⟨m, hm, rfl⟩ := List.mem_map.mp hfn
    exact hstopu m (List.mem_filter.mp hm).1
  have hrest : spliceBefore (u ++ n :: v) (jsIndexOf (u ++ n :: v) n)
      { paramProp := some n, tag := f n }
      ((v.filter (fun m => S.contains m)).map
        (fun m => { paramProp := some m, tag := f m }) ++ [base])
      = { paramProp := some n, tag := f n }
        :: ((v.filter (fun m => S.contains m)).map
          (fun m => { paramProp := some m, tag := f m }) ++ [base]) := by
    cases hfv : (v.filter (fun m => S.contains m)).map
        (fun m => { paramProp := some m, tag := f m : StackFn }) with
    | nil =>
      simp only [List.nil_append]
      exact spliceBefore_cons_stop _ _ _ _ _ hstopb
    | cons g gs =>
      rw [List.cons_append]
      refine spliceBefore_cons_stop _ _ _ _ _ ?_
      have hg : g ∈ (v.filter (fun m => S.contains m)).map
          (fun m => { paramProp := some m, tag := f m : StackFn }) := by
        rw [hfv]
        simp
      obtain ⟨m, hm, hgm⟩ := List.mem_map.mp hg
      rw [← hgm]
      exact hstopv m (List.mem_filter.mp hm).1
  rw [hrest]
  simp [List.map_cons, List.append_assoc]

theorem param_fold_inv (names : List String) (f : String → Nat) (base : StackFn)
    (hbase : base.paramProp = none) (hnd : names.Nodup)
    (hne : ∀ m ∈ names, m ≠ "") :
    ∀ (order S : List String) (l : Layer),
      l.paramNames.map Key.name = names →
      order.Nodup →
      (∀ m ∈ order, m ∈ names ∧ m ∉ S) →
      l.stack = (names.filter (fun m => S.contains m)).map
          (fun m => { paramProp := some m, tag := f m }) ++ [base] →
      (order.foldl (fun acc n => Layer.param n (f n) acc) l).stack
        = (names.filter (fun m => S.contains m || order.contains m)).map
            (fun m => { paramProp := some m, tag := f m }) ++ [base] := by
  intro order
  induction order with
  | nil =>
    intro S l _ _ _ hstack
    rw [List.foldl_nil, hstack]
    have hcong : names.filter (fun m => S.contains m || ([] : List String).contains m)
        = names.filter (fun m => S.contains m) := by
      apply List.filter_congr
      intro m _
      simp [List.contains]
    rw [hcong]
  | cons n order' ih =>
    intro S l hnames hord hsub hstack
    have hn : n ∈ names := (hsub n (by simp)).1
    have hnS : n ∉ S := (hsub n (by simp)).2
    have hnodup' := List.nodup_cons.mp hord
    rw [List.foldl_cons]
    have hstack' : (Layer.param n (f n) l).stack
        = (names.filter (fun m => S.contains m || m == n)).map
            (fun m => { paramProp := some m, tag := f m }) ++ [base] := by
      rw [Layer.param_stack_of_mem n (f n) l (by rw [hnames]; exact hn)]
      rw [hnames, hstack]
      exact splice_into_sorted names f base hbase hnd hne S n hn hnS
    have hcont1 : ∀ m, ((S ++ [n]).contains m) = (S.contains m || m == n) := by
      intro m
      by_cases h1 : m ∈ S <;> by_cases h2 : m = n <;>
        simp [List.contains, List.elem_eq_mem, h1, h2]
    have happly := ih (S ++ [n]) (Layer.param n (f n) l)
      (by rw [Layer.param_paramNames, hnames])
      hnodup'.2
      (fun m hm => ⟨(hsub m (by simp [hm])).1, by
        intro hmem
        rcases List.mem_append.mp hmem with h1 | h1
        · exact (hsub m (by simp [hm])).2 h1
        · have : m = n := by simpa using h1
          exact hnodup'.1 (this ▸ hm)⟩)
      (by
        rw [hstack']
        have : names.filter (fun m => (S ++ [n]).contains m)
            = names.filter (fun m => S.contains m || m == n) :=
          List.filter_congr (fun m _ => hcont1 m)
        rw [this])
    rw [happly]
    have hcont2 : ∀ m, ((S ++ [n]).contains m || order'.contains m)
        = (S.contains m || (n :: order').contains m) := by
      intro m
      by_cases h1 : m ∈ S <;> by_cases h2 : m = n <;> by_cases h3 : m ∈ order' <;>
        simp [List.contains, List.elem_eq_mem, h1, h2, h3]
    have : names.filter (fun m => (S ++ [n]).contains m || order'.contains m)
        = names.filter (fun m => S.contains m || (n :: order').contains m) :=
      List.filter_congr (fun m _ => hcont2 m)
    rw [this]

/-- C4. `Layer#param`: (i) when `n` is among the layer's param names and some
stack entry satisfies the stop condition (it is not a parameter validator, or
it validates a parameter with a later index in `paramNames`), the wrapper is
inserted exactly at the index of the first such entry; (ii) consequently, for
a layer whose stack is a single plain handler, registering validators for any
duplicate-free subset of its (non-empty, duplicate-free) param names in ANY
order leaves the stack as those validators in left-to-right `paramNames`
order, in front of the handler — so they run in declaration order of the URL
parameters, regardless of registration order. -/
theorem param_insertion_orders_validators (l : Layer) (f : String → Nat)
    (base : StackFn) (hbase : base.paramProp = none)
    (hnd : (l.paramNames.map Key.name).Nodup)
    (hne : ∀ m ∈ l.paramNames.map Key.name, m ≠ "") :
    (∀ (p : String) (t : Nat),
        p ∈ l.paramNames.map Key.name →
        (l.stack.any (stopHere (l.paramNames.map Key.name)
          (jsIndexOf (l.paramNames.map Key.name) p))) = true →
        (Layer.param p t l).stack
          = l.stack.insertIdx
              (l.stack.findIdx (stopHere (l.paramNames.map Key.name)
                (jsIndexOf (l.paramNames.map Key.name) p)))
              { paramProp := some p, tag := t })
    ∧ (∀ order : List String,
        order.Nodup →
        (∀ m ∈ order, m ∈ l.paramNames.map Key.name) →
        l.stack = [base] →
        (order.foldl (fun acc n => Layer.param n (f n) acc) l).stack
          = ((l.paramNames.map Key.name).filter (fun m => order.contains m)).map
              (fun m => { paramProp := some m, tag := f m }) ++ [base]) := by
  constructor
  · intro p t hp hany
    rw [Layer.param_stack_of_mem p t l hp]
    exact spliceBefore_eq_insertIdx _ _ _ l.stack hany
  · intro order hord hsub hstack
    have hinv := param_fold_inv (l.paramNames.map Key.name) f base hbase hnd hne
      order [] l rfl hord (fun m hm => ⟨hsub m hm, by simp⟩)
      (by
        rw [hstack]
        have : (l.paramNames.map Key.name).filter
            (fun m => ([] : List String).contains m) = [] := by
          have := List.filter_congr
            (fun m _ => by simp [List.contains] :
              ∀ m ∈ l.paramNames.map Key.name,
                ((fun m => ([] : List String).contains m) m) = ((fun _ => false) m))
          rw [this, List.filter_false]
        rw [this]
        rfl)
    rw [hinv]
    have : (l.paramNames.map Key.name).filter
        (fun m => ([] : List String).contains m || order.contains m)
        = (l.paramNames.map Key.name).filter (fun m => order.contains m) := by
      apply List.filter_congr
      intro m _
      simp [List.contains]
    rw [this]

/-- A layer for the pattern `/:a/:b/:c/:d` with one plain handler, as in the
spec's parameter-ordering example. -/
def abcdLayer : Layer :=
  { name := none
    methods := []
    stack := [{ paramProp := none, tag := 99 }]
    path := "/:a/:b/:c/:d"
    matcher := catchAllMatcher
    paramNames := [{ name := "a" }, { name := "b" }, { name := "c" }, { name := "d" }]
    ignoreCaptures := false }

/-- Tags of the four validators of the example. -/
def abcdTag (m : String) : Nat :=
  if m == "a" then 0 else if m == "b" then 1 else if m == "c" then 2 else 3

/-- Witness for C4, the spec's example: registering the validators in the
scrambled order d, c, a, b leaves the stack ordered a, b, c, d in front of the
handler. -/
theorem param_insertion_orders_validators_witness :
    ((["d", "c", "a", "b"].foldl
        (fun acc n => Layer.param n (abcdTag n) acc) abcdLayer).stack)
      = [{ paramProp := some "a", tag := 0 }, { paramProp := some "b", tag := 1 },
         { paramProp := some "c", tag := 2 }, { paramProp := some "d", tag := 3 },
         { paramProp := none, tag := 99 }] := by
  have h := param_insertion_orders_validators abcdLayer abcdTag
    { paramProp := none, tag := 99 } rfl (by decide) (by decide)
  rw [h.2 ["d", "c", "a", "b"] (by decide) (by decide) rfl]
  rfl

end Spec
